import Mathlib

/-!
Verification development for the letter-guessing vocabulary game
(`src/letter_guessing_game.py`).

The program is a single-file interactive game.  We shallowly embed its core:

* the static word database `WORD_DATABASE` (lines 29-66);
* the round engine `play_round` (lines 282-338), modelled as a pure
  function over a *script* of user inputs (each input is the stripped
  text the player typed, as a `List Char`); the blocking `input()` calls
  become consumption of successive script entries, and running out of
  script is reported as a distinct `RoundEnd.outOfInput` outcome;
* the session loop `play_game` (lines 367-398), with the random draws of
  `get_random_word` injected as an explicit draw function;
* the high-score ledger: `load_high_scores` (80-88), `save_high_scores`
  (90-96), `add_high_score` (98-108), and the qualification condition
  guarding `add_high_score` at line 394.

Machine integers do not overflow here (Python ints are unbounded), so
scores and counters are `Nat`/`Int`.  File I/O is modelled by an explicit
`FileState` (read side) and an [ok/fail] flag plus store value (write
side), mirroring the `try/except` blocks of the source.
-/

namespace LetterGame

/-- Source constant `MAX_ATTEMPTS = 6` (line 24). -/
def MAX_ATTEMPTS : Nat := 6

/-- Source constant `ROUNDS_PER_GAME = 10` (line 25). -/
def ROUNDS_PER_GAME : Nat := 10

/-- One record of the static word database: the word, its Persian meaning,
IPA pronunciation guide and an example sentence (lines 29-66). -/
structure WordRecord where
  word : String
  meaning : String
  ipa : String
  sentence : String
  deriving DecidableEq

/-- The `"easy"` entry of `WORD_DATABASE` (lines 30-41). -/
def easyWords : List WordRecord := [
  ⟨"apple", "سیب", "/ˈæpəl/", "I eat an apple every day."⟩,
  ⟨"book", "کتاب", "/bʊk/", "She is reading a book."⟩,
  ⟨"cat", "گربه", "/kæt/", "The cat is sleeping."⟩,
  ⟨"dog", "سگ", "/dɔːɡ/", "My dog is very friendly."⟩,
  ⟨"house", "خانه", "/haʊs/", "They live in a big house."⟩,
  ⟨"water", "آب", "/ˈwɔːtər/", "Please drink more water."⟩,
  ⟨"friend", "دوست", "/frend/", "He is my best friend."⟩,
  ⟨"school", "مدرسه", "/skuːl/", "The children go to school."⟩,
  ⟨"happy", "خوشحال", "/ˈhæpi/", "She looks very happy today."⟩,
  ⟨"family", "خانواده", "/ˈfæməli/", "My family is very important to me."⟩]

/-- The `"medium"` entry of `WORD_DATABASE` (lines 42-53). -/
def mediumWords : List WordRecord := [
  ⟨"beautiful", "زیبا", "/ˈbjuːtɪfəl/", "The sunset was beautiful."⟩,
  ⟨"important", "مهم", "/ɪmˈpɔːrtənt/", "This is an important decision."⟩,
  ⟨"knowledge", "دانش", "/ˈnɑːlɪdʒ/", "Knowledge is power."⟩,
  ⟨"environment", "محیط زیست", "/ɪnˈvaɪrənmənt/", "We must protect the environment."⟩,
  ⟨"successful", "موفق", "/səkˈsesfəl/", "She became a successful doctor."⟩,
  ⟨"difficult", "دشوار", "/ˈdɪfɪkəlt/", "The exam was very difficult."⟩,
  ⟨"interesting", "جالب", "/ˈɪntrəstɪŋ/", "The book is very interesting."⟩,
  ⟨"necessary", "ضروری", "/ˈnesəseri/", "Sleep is necessary for health."⟩,
  ⟨"experience", "تجربه", "/ɪkˈspɪriəns/", "Traveling is a great experience."⟩,
  ⟨"government", "دولت", "/ˈɡʌvərnmənt/", "The government announced new policies."⟩]

/-- The `"hard"` entry of `WORD_DATABASE` (lines 54-65). -/
def hardWords : List WordRecord := [
  ⟨"entrepreneur", "کارآفرین", "/ˌɑːntrəprəˈnɜːr/", "The entrepreneur started a new company."⟩,
  ⟨"consciousness", "آگاهی", "/ˈkɑːnʃəsnəs/", "Human consciousness is complex."⟩,
  ⟨"philosophical", "فلسفی", "/ˌfɪləˈsɑːfɪkəl/", "They had a philosophical discussion."⟩,
  ⟨"revolutionary", "انقلابی", "/ˌrevəˈluːʃəneri/", "It was a revolutionary idea."⟩,
  ⟨"extraordinary", "استثنایی", "/ɪkˈstrɔːrdəneri/", "She has extraordinary talent."⟩,
  ⟨"sophisticated", "پیچیده و پیشرفته", "/səˈfɪstɪkeɪtɪd/", "The system is very sophisticated."⟩,
  ⟨"unprecedented", "بی‌سابقه", "/ʌnˈpresɪdentɪd/", "This is an unprecedented situation."⟩,
  ⟨"psychological", "روانشناختی", "/ˌsaɪkəˈlɑːdʒɪkəl/", "The study has psychological implications."⟩,
  ⟨"infrastructure", "زیرساخت", "/ˈɪnfrəstrʌktʃər/", "The city needs better infrastructure."⟩,
  ⟨"communication", "ارتباطات", "/kəˌmjuːnɪˈkeɪʃən/", "Good communication is essential."⟩]

/-- The dictionary `WORD_DATABASE` (lines 29-66), keyed by difficulty tag.
A key outside the three fixed tags would raise `KeyError` in Python; it is
never reached by the program, and we map it to the empty list. -/
def WORD_DATABASE : String → List WordRecord
  | "easy" => easyWords
  | "medium" => mediumWords
  | "hard" => hardWords
  | _ => []

/-- Every word of the word bank, across the three difficulty tiers. -/
def wordBank : List WordRecord := easyWords ++ mediumWords ++ hardWords

/-- The base-point dictionary `{"easy": 10, "medium": 20, "hard": 30}`
used at line 320 of `play_round`. -/
def basePoints : String → Nat
  | "easy" => 10
  | "medium" => 20
  | "hard" => 30
  | _ => 0

/-- The session-level mutable state of `LetterGuessingGame` touched by a
round: `self.score`, `self.words_learned`, `self.total_attempts`,
`self.correct_guesses` (lines 72-77). -/
structure GameState where
  score : Nat
  wordsLearned : List String
  totalAttempts : Nat
  correctGuesses : Nat
  deriving DecidableEq

/-- How a modelled round ends: `won`/`lost` are the `return True` /
`return False` exits of `play_round`; `outOfInput` marks a run whose
input script was exhausted while the Python loop would still be blocked
on `input()`. -/
inductive RoundEnd where
  | won
  | lost
  | outOfInput
  deriving DecidableEq

/-- The observable result of a modelled round: the boolean outcome of
`play_round`, the points added to the session score (0 unless won), the
final value of the local variables `attempts_left`, `correct_letters`,
`wrong_letters`, the list of guesses the input-validation loop accepted
(in order of acceptance), and the updated session state. -/
structure RoundResult where
  outcome : RoundEnd
  pointsEarned : Nat
  attemptsLeft : Nat
  correctLetters : List Char
  wrongLetters : List Char
  accepted : List Char
  game : GameState
  deriving DecidableEq

/-- The guess-validation loop of `play_round` (lines 300-307) applied to
one typed input: the input is upper-cased; it is accepted exactly when it
is a single alphabetic character not already in `correct_letters` or
`wrong_letters`.  `none` means the input is rejected and the player is
re-prompted with no state change.  (Python's `str.upper`/`str.isalpha`
are modelled on the ASCII alphabet, which covers the whole word bank.) -/
def acceptedGuess (correct wrong : List Char) (input : List Char) : Option Char :=
  match input.map Char.toUpper with
  | [c] =>
    if c.isAlpha then
      if c ∈ correct ∨ c ∈ wrong then none else some c
    else
      none
  | _ => none

/-- Source `is_word_complete` (lines 278-280):
`all(letter in guessed_letters for letter in word)`. -/
def is_word_complete (word : List Char) (guessed_letters : List Char) : Bool :=
  word.all (fun letter => letter ∈ guessed_letters)

/-- The `while attempts_left > 0` loop of `play_round` (lines 293-338),
run against a script of typed inputs.  `word` is the upper-cased target,
`base` the difficulty's base points, `origWord` the original (lower-case)
word appended to `words_learned` on success.  Each accepted guess
increments `total_attempts`; a correct one is added to `correct_letters`
and increments `correct_guesses` (winning immediately, with
`base + attempts_left * 5` points, if the word is now complete); a wrong
one is added to `wrong_letters` and decrements `attempts_left`. -/
def roundLoop (word : List Char) (base : Nat) (origWord : String) (g : GameState)
    (correct wrong acc : List Char) (attempts : Nat)
    (script : List (List Char)) : RoundResult :=
  if attempts = 0 then
    ⟨.lost, 0, attempts, correct, wrong, acc, g⟩
  else
    match script with
    | [] => ⟨.outOfInput, 0, attempts, correct, wrong, acc, g⟩
    | input :: rest =>
      match acceptedGuess correct wrong input with
      | none => roundLoop word base origWord g correct wrong acc attempts rest
      | some c =>
        if c ∈ word then
          if is_word_complete word (c :: correct) then
            ⟨.won, base + attempts * 5, attempts, c :: correct, wrong, c :: acc,
              { g with score := g.score + (base + attempts * 5),
                       wordsLearned := g.wordsLearned ++ [origWord],
                       totalAttempts := g.totalAttempts + 1,
                       correctGuesses := g.correctGuesses + 1 }⟩
          else
            roundLoop word base origWord
              { g with totalAttempts := g.totalAttempts + 1,
                       correctGuesses := g.correctGuesses + 1 }
              (c :: correct) wrong (c :: acc) attempts rest
        else
          roundLoop word base origWord
            { g with totalAttempts := g.totalAttempts + 1 }
            correct (c :: wrong) (c :: acc) (attempts - 1) rest

/-- Source `play_round` (lines 282-338) for a given drawn word record
(the `random.choice` of `get_random_word` is injected by the caller):
upper-cases the word, starts with empty guess sets and
`attempts_left = MAX_ATTEMPTS`, and runs the guessing loop. -/
def play_round (difficulty : String) (g : GameState) (wr : WordRecord)
    (script : List (List Char)) : RoundResult :=
  roundLoop (wr.word.data.map Char.toUpper) (basePoints difficulty) wr.word
    g [] [] [] MAX_ATTEMPTS script

/-- One persisted high-score entry, as built at lines 100-105:
`{"name": ..., "score": ..., "difficulty": ..., "date": ...}`.  Python's
score is an unbounded int; loaded files may hold any integer. -/
structure ScoreEntry where
  name : String
  score : Int
  difficulty : String
  date : String
  deriving DecidableEq

/-- The read side of the score file for one `load_high_scores` call:
the file is absent, present but unreadable/unparsable, or parses to a
list of entries. -/
inductive FileState where
  | missing
  | corrupt
  | ok (entries : List ScoreEntry)
  deriving DecidableEq

/-- Source `load_high_scores` (lines 80-88): returns the parsed file
contents verbatim when the file exists and parses; returns `[]` when the
file is missing or `json.load`/`open` raises
(`json.JSONDecodeError, IOError` are caught and ignored). -/
def load_high_scores : FileState → List ScoreEntry
  | .missing => []
  | .corrupt => []
  | .ok entries => entries

/-- Source `save_high_scores` (lines 90-96): writes the ledger to the
file; an `IOError` is caught and ignored, leaving the store as it was.
`writeOk` says whether the write raises; `store` is the file contents
before the call; the result is the file contents after the call. -/
def save_high_scores (writeOk : Bool) (store : Option (List ScoreEntry))
    (ledger : List ScoreEntry) : Option (List ScoreEntry) :=
  if writeOk then some ledger else store

/-- One step of the stable descending sort performed by
`self.high_scores.sort(key=lambda x: x["score"], reverse=True)` at
line 106: insert `e` into an already-processed suffix, before the first
element whose score does not exceed `e.score`.  Earlier elements with a
strictly greater score stay in front, so equal-score elements keep their
original relative order — the stability guarantee of Python's `list.sort`. -/
def insertScoreDesc (e : ScoreEntry) : List ScoreEntry → List ScoreEntry
  | [] => [e]
  | x :: xs => if e.score ≥ x.score then e :: x :: xs else x :: insertScoreDesc e xs

/-- The stable descending sort of line 106 (`key=lambda x: x["score"]`,
`reverse=True`): the unique permutation that is sorted descending by
score and keeps equal-score elements in their original order. -/
def sortScoresDesc : List ScoreEntry → List ScoreEntry
  | [] => []
  | x :: xs => insertScoreDesc x (sortScoresDesc xs)

/-- Source `add_high_score` (lines 98-108) on the in-memory ledger:
append the new entry, sort descending by score (stable), keep the first
10. -/
def add_high_score (ledger : List ScoreEntry) (e : ScoreEntry) : List ScoreEntry :=
  (sortScoresDesc (ledger ++ [e])).take 10

/-- Source `add_high_score` including its final `self.save_high_scores()`
call (line 108): returns the new in-memory ledger and the store contents
after the synchronous (best-effort) save. -/
def add_high_score_run (writeOk : Bool) (store : Option (List ScoreEntry))
    (ledger : List ScoreEntry) (e : ScoreEntry) :
    List ScoreEntry × Option (List ScoreEntry) :=
  let ledger1 := add_high_score ledger e
  (ledger1, save_high_scores writeOk store ledger1)

/-- The score of `high_scores[-1]`, the last element of the ledger
(line 394); the program reads it only on a non-empty ledger, and the
default on `[]` is never relied upon. -/
def lastScore (ledger : List ScoreEntry) : Int :=
  ((ledger.getLast?).map ScoreEntry.score).getD 0

/-- The condition guarding `add_high_score` at game end, line 394:
`if self.high_scores and self.score > self.high_scores[-1]['score'] or not self.high_scores:`.
Python groups this as `(nonempty and score > last) or empty`. -/
def high_score_check (ledger : List ScoreEntry) (score : Int) : Bool :=
  (!ledger.isEmpty && decide (score > lastScore ledger)) || ledger.isEmpty

/-- The qualification rule as the spec states it (section 4.3,
`qualifies`): fewer than 10 entries, or score strictly above the
lowest-ranked (last) entry's score.  Stated from the spec's words, for
comparison with `high_score_check`, the condition the code uses. -/
def qualifies_spec (ledger : List ScoreEntry) (score : Int) : Bool :=
  decide (ledger.length < 10) || decide (score > lastScore ledger)

/-- The descending-sortedness invariant of the ledger: every earlier
entry's score is at least every later entry's score. -/
def sortedDesc (l : List ScoreEntry) : Prop :=
  l.Pairwise (fun a b => b.score ≤ a.score)

/-- The `for self.round in range(ROUNDS_PER_GAME)` loop of `play_game`
(lines 384-389): play each listed round (a drawn word record plus the
player's input script for that round), threading the session state, and
count the rounds executed. -/
def playRounds (difficulty : String) (g : GameState) :
    List (WordRecord × List (List Char)) → GameState × Nat
  | [] => (g, 0)
  | (wr, script) :: rest =>
    let r := play_round difficulty g wr script
    let res := playRounds difficulty r.game rest
    (res.1, res.2 + 1)

/-- The playing phase of source `play_game` (lines 377-391): reset the
session statistics (lines 377-382), then run `ROUNDS_PER_GAME` rounds,
round `i` using the `i`-th injected random draw and input script. -/
def play_game (difficulty : String)
    (draws : Nat → WordRecord × List (List Char)) : GameState × Nat :=
  playRounds difficulty ⟨0, [], 0, 0⟩ ((List.range ROUNDS_PER_GAME).map draws)

/-- The `"cat"` record of the easy tier (line 33), used by the spec's
success scenario. -/
def catRecord : WordRecord := ⟨"cat", "گربه", "/kæt/", "The cat is sleeping."⟩

/-- The `"dog"` record of the easy tier (line 34), used by the spec's
failure scenario. -/
def dogRecord : WordRecord := ⟨"dog", "سگ", "/dɔːɡ/", "My dog is very friendly."⟩

/-- A one-entry ledger whose lowest score is 100: far below the 10-entry
cap, so by the spec any session score should qualify. -/
def shortLedger : List ScoreEntry := [⟨"bob", 100, "easy", "2026-01-01 10:00"⟩]

/-- A ledger as a hand-edited score file could contain it: valid entries,
but not sorted descending, so its last element (score 100) is not its
minimum (score 50). -/
def badLedger : List ScoreEntry :=
  [⟨"alice", 50, "easy", "2026-01-01 00:00"⟩, ⟨"bob", 100, "easy", "2026-01-01 00:00"⟩]

/-- A ledger as the program itself writes it: sorted descending, so its
last element is its minimum. -/
def goodLedger : List ScoreEntry :=
  [⟨"bob", 100, "easy", "2026-01-01 00:00"⟩, ⟨"alice", 50, "easy", "2026-01-01 00:00"⟩]

/-! ### Unfolding equations for the round loop

One rewrite lemma for each way a loop iteration can go: attempts already
exhausted, script exhausted, input rejected, correct winning guess,
correct non-winning guess, wrong guess. -/

theorem roundLoop_zero {word : List Char} {base : Nat} {ow : String} {g : GameState}
    {correct wrong acc : List Char} {script : List (List Char)} :
    roundLoop word base ow g correct wrong acc 0 script =
      ⟨.lost, 0, 0, correct, wrong, acc, g⟩ := by
  cases script <;> simp [roundLoop]

theorem roundLoop_nil {word : List Char} {base : Nat} {ow : String} {g : GameState}
    {correct wrong acc : List Char} {attempts : Nat} (h0 : attempts ≠ 0) :
    roundLoop word base ow g correct wrong acc attempts [] =
      ⟨.outOfInput, 0, attempts, correct, wrong, acc, g⟩ := by
  simp [roundLoop, h0]

theorem roundLoop_cons_none {word : List Char} {base : Nat} {ow : String} {g : GameState}
    {correct wrong acc : List Char} {attempts : Nat} {input : List Char}
    {rest : List (List Char)} (h0 : attempts ≠ 0)
    (hg : acceptedGuess correct wrong input = none) :
    roundLoop word base ow g correct wrong acc attempts (input :: rest) =
      roundLoop word base ow g correct wrong acc attempts rest := by
  conv_lhs => rw [roundLoop]
  simp [h0, hg]

theorem roundLoop_cons_win {word : List Char} {base : Nat} {ow : String} {g : GameState}
    {correct wrong acc : List Char} {attempts : Nat} {input : List Char}
    {rest : List (List Char)} {c : Char} (h0 : attempts ≠ 0)
    (hg : acceptedGuess correct wrong input = some c) (hc : c ∈ word)
    (hdone : is_word_complete word (c :: correct) = true) :
    roundLoop word base ow g correct wrong acc attempts (input :: rest) =
      ⟨.won, base + attempts * 5, attempts, c :: correct, wrong, c :: acc,
        { g with score := g.score + (base + attempts * 5),
                 wordsLearned := g.wordsLearned ++ [ow],
                 totalAttempts := g.totalAttempts + 1,
                 correctGuesses := g.correctGuesses + 1 }⟩ := by
  conv_lhs => rw [roundLoop]
  simp [h0, hg, hc, hdone]

theorem roundLoop_cons_correct {word : List Char} {base : Nat} {ow : String} {g : GameState}
    {correct wrong acc : List Char} {attempts : Nat} {input : List Char}
    {rest : List (List Char)} {c : Char} (h0 : attempts ≠ 0)
    (hg : acceptedGuess correct wrong input = some c) (hc : c ∈ word)
    (hdone : is_word_complete word (c :: correct) = false) :
    roundLoop word base ow g correct wrong acc attempts (input :: rest) =
      roundLoop word base ow
        { g with totalAttempts := g.totalAttempts + 1,
                 correctGuesses := g.correctGuesses + 1 }
        (c :: correct) wrong (c :: acc) attempts rest := by
  conv_lhs => rw [roundLoop]
  simp [h0, hg, hc, hdone]

theorem roundLoop_cons_wrong {word : List Char} {base : Nat} {ow : String} {g : GameState}
    {correct wrong acc : List Char} {attempts : Nat} {input : List Char}
    {rest : List (List Char)} {c : Char} (h0 : attempts ≠ 0)
    (hg : acceptedGuess correct wrong input = some c) (hc : c ∉ word) :
    roundLoop word base ow g correct wrong acc attempts (input :: rest) =
      roundLoop word base ow { g with totalAttempts := g.totalAttempts + 1 }
        correct (c :: wrong) (c :: acc) (attempts - 1) rest := by
  conv_lhs => rw [roundLoop]
  simp [h0, hg, hc]

/-! ### Invariants of the round loop -/

/-- `attempts_left` never increases over a round. -/
theorem roundLoop_attemptsLeft_le (word : List Char) (base : Nat) (ow : String)
    (script : List (List Char)) (g : GameState) (correct wrong acc : List Char)
    (attempts : Nat) :
    (roundLoop word base ow g correct wrong acc attempts script).attemptsLeft ≤ attempts := by
  induction script generalizing g correct wrong acc attempts with
  | nil =>
    by_cases h0 : attempts = 0
    · subst h0; rw [roundLoop_zero]
    · rw [roundLoop_nil h0]
  | cons input rest ih =>
    by_cases h0 : attempts = 0
    · subst h0; rw [roundLoop_zero]
    · cases hg : acceptedGuess correct wrong input with
      | none => rw [roundLoop_cons_none h0 hg]; exact ih _ _ _ _ _
      | some c =>
        by_cases hc : c ∈ word
        · cases hdone : is_word_complete word (c :: correct) with
          | true => rw [roundLoop_cons_win h0 hg hc hdone]
          | false =>
            rw [roundLoop_cons_correct h0 hg hc hdone]
            exact ih _ _ _ _ _
        · rw [roundLoop_cons_wrong h0 hg hc]
          exact le_trans (ih _ _ _ _ _) (Nat.sub_le _ _)

/-- `attempts_left` drops by exactly one per element added to
`wrong_letters` and changes in no other way: their sum is conserved. -/
theorem roundLoop_attempts_wrong_sum (word : List Char) (base : Nat) (ow : String)
    (script : List (List Char)) (g : GameState) (correct wrong acc : List Char)
    (attempts : Nat) :
    (roundLoop word base ow g correct wrong acc attempts script).attemptsLeft +
      (roundLoop word base ow g correct wrong acc attempts script).wrongLetters.length =
      attempts + wrong.length := by
  induction script generalizing g correct wrong acc attempts with
  | nil =>
    by_cases h0 : attempts = 0
    · subst h0; rw [roundLoop_zero]
    · rw [roundLoop_nil h0]
  | cons input rest ih =>
    by_cases h0 : attempts = 0
    · subst h0; rw [roundLoop_zero]
    · cases hg : acceptedGuess correct wrong input with
      | none => rw [roundLoop_cons_none h0 hg]; exact ih _ _ _ _ _
      | some c =>
        by_cases hc : c ∈ word
        · cases hdone : is_word_complete word (c :: correct) with
          | true => rw [roundLoop_cons_win h0 hg hc hdone]
          | false =>
            rw [roundLoop_cons_correct h0 hg hc hdone]
            exact ih _ _ _ _ _
        · rw [roundLoop_cons_wrong h0 hg hc]
          have := ih { g with totalAttempts := g.totalAttempts + 1 } correct
            (c :: wrong) (c :: acc) (attempts - 1)
          simp only [List.length_cons] at this ⊢
          omega

/-- A round that does not end in a win earns no points and leaves the
session score and words-learned list untouched. -/
theorem roundLoop_not_won_frame (word : List Char) (base : Nat) (ow : String)
    (script : List (List Char)) (g : GameState) (correct wrong acc : List Char)
    (attempts : Nat)
    (h : (roundLoop word base ow g correct wrong acc attempts script).outcome ≠ RoundEnd.won) :
    (roundLoop word base ow g correct wrong acc attempts script).pointsEarned = 0 ∧
      (roundLoop word base ow g correct wrong acc attempts script).game.score = g.score ∧
      (roundLoop word base ow g correct wrong acc attempts script).game.wordsLearned =
        g.wordsLearned := by
  induction script generalizing g correct wrong acc attempts with
  | nil =>
    by_cases h0 : attempts = 0
    · subst h0; rw [roundLoop_zero]; exact ⟨rfl, rfl, rfl⟩
    · rw [roundLoop_nil h0]; exact ⟨rfl, rfl, rfl⟩
  | cons input rest ih =>
    by_cases h0 : attempts = 0
    · subst h0; rw [roundLoop_zero]; exact ⟨rfl, rfl, rfl⟩
    · cases hg : acceptedGuess correct wrong input with
      | none =>
        rw [roundLoop_cons_none h0 hg] at h ⊢
        exact ih _ _ _ _ _ h
      | some c =>
        by_cases hc : c ∈ word
        · cases hdone : is_word_complete word (c :: correct) with
          | true => rw [roundLoop_cons_win h0 hg hc hdone] at h; simp at h
          | false =>
            rw [roundLoop_cons_correct h0 hg hc hdone] at h ⊢
            exact ih _ _ _ _ _ h
        · rw [roundLoop_cons_wrong h0 hg hc] at h ⊢
          exact ih _ _ _ _ _ h

/-- A winning round earns exactly `base + attempts_left * 5` points,
with `attempts_left` read at the moment of completion, and adds exactly
those points to the session score (and the word to the learned list). -/
theorem roundLoop_won_points (word : List Char) (base : Nat) (ow : String)
    (script : List (List Char)) (g : GameState) (correct wrong acc : List Char)
    (attempts : Nat)
    (h : (roundLoop word base ow g correct wrong acc attempts script).outcome = RoundEnd.won) :
    (roundLoop word base ow g correct wrong acc attempts script).pointsEarned =
      base + (roundLoop word base ow g correct wrong acc attempts script).attemptsLeft * 5 ∧
    (roundLoop word base ow g correct wrong acc attempts script).game.score =
      g.score + (roundLoop word base ow g correct wrong acc attempts script).pointsEarned ∧
    (roundLoop word base ow g correct wrong acc attempts script).game.wordsLearned =
      g.wordsLearned ++ [ow] := by
  induction script generalizing g correct wrong acc attempts with
  | nil =>
    by_cases h0 : attempts = 0
    · subst h0; rw [roundLoop_zero] at h; simp at h
    · rw [roundLoop_nil h0] at h; simp at h
  | cons input rest ih =>
    by_cases h0 : attempts = 0
    · subst h0; rw [roundLoop_zero] at h; simp at h
    · cases hg : acceptedGuess correct wrong input with
      | none =>
        rw [roundLoop_cons_none h0 hg] at h ⊢
        exact ih _ _ _ _ _ h
      | some c =>
        by_cases hc : c ∈ word
        · cases hdone : is_word_complete word (c :: correct) with
          | true =>
            rw [roundLoop_cons_win h0 hg hc hdone]
            exact ⟨rfl, rfl, rfl⟩
          | false =>
            rw [roundLoop_cons_correct h0 hg hc hdone] at h ⊢
            exact ih _ _ _ _ _ h
        · rw [roundLoop_cons_wrong h0 hg hc] at h ⊢
          exact ih _ _ _ _ _ h

/-- If the guesses the round actually accepted cover every letter of the
target word, the round ends in a win.  The invariant `hinv` says every
word letter accepted so far is already in `correct_letters`; `hncov`
says the word is not yet complete (else the loop would have returned). -/
theorem roundLoop_covered_won (word : List Char) (base : Nat) (ow : String)
    (script : List (List Char)) (g : GameState) (correct wrong acc : List Char)
    (attempts : Nat)
    (hinv : ∀ c, c ∈ word → c ∈ acc → c ∈ correct)
    (hncov : is_word_complete word correct = false)
    (hcov : ∀ c ∈ word,
      c ∈ (roundLoop word base ow g correct wrong acc attempts script).accepted) :
    (roundLoop word base ow g correct wrong acc attempts script).outcome = RoundEnd.won := by
  induction script generalizing g correct wrong acc attempts with
  | nil =>
    exfalso
    have hacc : ∀ c ∈ word, c ∈ acc := by
      by_cases h0 : attempts = 0
      · subst h0; rw [roundLoop_zero] at hcov; exact hcov
      · rw [roundLoop_nil h0] at hcov; exact hcov
    have hall : is_word_complete word correct = true := by
      simp only [is_word_complete, List.all_eq_true, decide_eq_true_eq]
      intro l hl
      exact hinv l hl (hacc l hl)
    simp [hall] at hncov
  | cons input rest ih =>
    by_cases h0 : attempts = 0
    · exfalso
      subst h0
      rw [roundLoop_zero] at hcov
      have hall : is_word_complete word correct = true := by
        simp only [is_word_complete, List.all_eq_true, decide_eq_true_eq]
        intro l hl
        exact hinv l hl (hcov l hl)
      simp [hall] at hncov
    · cases hg : acceptedGuess correct wrong input with
      | none =>
        rw [roundLoop_cons_none h0 hg] at hcov ⊢
        exact ih _ _ _ _ _ hinv hncov hcov
      | some c =>
        by_cases hc : c ∈ word
        · cases hdone : is_word_complete word (c :: correct) with
          | true => rw [roundLoop_cons_win h0 hg hc hdone]
          | false =>
            rw [roundLoop_cons_correct h0 hg hc hdone] at hcov ⊢
            refine ih _ _ _ _ _ ?_ hdone hcov
            intro d hd hmem
            rcases List.mem_cons.mp hmem with hdc | hda
            · exact hdc ▸ List.mem_cons_self c correct
            · exact List.mem_cons_of_mem c (hinv d hd hda)
        · rw [roundLoop_cons_wrong h0 hg hc] at hcov ⊢
          refine ih _ _ _ _ _ ?_ hncov hcov
          intro d hd hmem
          rcases List.mem_cons.mp hmem with hdc | hda
          · exact absurd (hdc ▸ hd) hc
          · exact hinv d hd hda

/-! ### Ledger and session lemmas -/

theorem mem_insertScoreDesc {e y : ScoreEntry} {l : List ScoreEntry} :
    y ∈ insertScoreDesc e l ↔ y = e ∨ y ∈ l := by
  induction l with
  | nil => simp [insertScoreDesc]
  | cons x xs ih =>
    by_cases h : e.score ≥ x.score
    · simp [insertScoreDesc, h]
    · simp [insertScoreDesc, h, ih]
      tauto

theorem insertScoreDesc_sorted {e : ScoreEntry} {l : List ScoreEntry}
    (hl : sortedDesc l) : sortedDesc (insertScoreDesc e l) := by
  induction l with
  | nil => simp [insertScoreDesc, sortedDesc]
  | cons x xs ih =>
    rcases List.pairwise_cons.mp hl with ⟨hx, hxs⟩
    by_cases h : e.score ≥ x.score
    · simp only [insertScoreDesc, if_pos h]
      refine List.pairwise_cons.mpr ⟨?_, hl⟩
      intro b hb
      rcases List.mem_cons.mp hb with rfl | hbxs
      · exact h
      · exact le_trans (hx b hbxs) h
    · simp only [insertScoreDesc, if_neg h]
      refine List.pairwise_cons.mpr ⟨?_, ih hxs⟩
      intro b hb
      rcases mem_insertScoreDesc.mp hb with rfl | hbxs
      · exact le_of_not_ge h
      · exact hx b hbxs

theorem sortScoresDesc_sorted (l : List ScoreEntry) : sortedDesc (sortScoresDesc l) := by
  induction l with
  | nil => simp [sortScoresDesc, sortedDesc]
  | cons x xs ih => exact insertScoreDesc_sorted ih

theorem insertScoreDesc_filter (e : ScoreEntry) (l : List ScoreEntry) (s : Int) :
    (insertScoreDesc e l).filter (fun x => decide (x.score = s)) =
      if e.score = s then e :: l.filter (fun x => decide (x.score = s))
      else l.filter (fun x => decide (x.score = s)) := by
  induction l with
  | nil =>
    by_cases hs : e.score = s <;> simp [insertScoreDesc, List.filter, hs]
  | cons x xs ih =>
    by_cases h : e.score ≥ x.score
    · simp only [insertScoreDesc, if_pos h]
      by_cases hs : e.score = s <;> simp [List.filter_cons, hs]
    · have hx : e.score < x.score := lt_of_not_ge h
      simp only [insertScoreDesc, if_neg h]
      by_cases hs : e.score = s
      · have hxs : ¬ (x.score = s) := by
          rw [← hs]
          exact ne_of_gt hx
        simp [List.filter_cons, hxs, ih, hs]
      · simp [List.filter_cons, ih, hs]

theorem sortScoresDesc_filter (l : List ScoreEntry) (s : Int) :
    (sortScoresDesc l).filter (fun x => decide (x.score = s)) =
      l.filter (fun x => decide (x.score = s)) := by
  induction l with
  | nil => rfl
  | cons x xs ih =>
    rw [sortScoresDesc, insertScoreDesc_filter]
    by_cases hs : x.score = s <;> simp [List.filter_cons, hs, ih]

theorem lastScore_min {l : List ScoreEntry} (hl : sortedDesc l) :
    ∀ e ∈ l, lastScore l ≤ e.score := by
  induction l with
  | nil => intro e he; cases he
  | cons x xs ih =>
    rcases List.pairwise_cons.mp hl with ⟨hx, hxs⟩
    intro e he
    cases xs with
    | nil =>
      have : e = x := by simpa using he
      subst this
      simp [lastScore]
    | cons y ys =>
      have hlast : lastScore (x :: y :: ys) = lastScore (y :: ys) := by
        simp [lastScore, List.getLast?_cons_cons]
      rcases List.mem_cons.mp he with rfl | hey
      · rw [hlast]
        exact le_trans (ih hxs y (List.mem_cons_self _ _)) (hx y (List.mem_cons_self _ _))
      · rw [hlast]
        exact ih hxs e hey

theorem playRounds_count (difficulty : String)
    (rounds : List (WordRecord × List (List Char))) (g : GameState) :
    (playRounds difficulty g rounds).2 = rounds.length := by
  induction rounds generalizing g with
  | nil => rfl
  | cons r rest ih =>
    cases r with
    | mk wr script => simp [playRounds, ih]

/-! ### Claim theorems -/

/-- C1: the claim states the qualification check guarding `add_high_score`
at game end returns true for every ledger with fewer than 10 entries.  The
code's guard at line 394 groups as `(nonempty and score > last) or empty`,
so a one-entry ledger whose last score is 100 rejects a session score of
50 even though the ledger is far from full.  `qualifies_spec`, the spec's
own wording of the rule, accepts that score; the check the code performs
does not, the divergence the spec's section 9 itself flags as an
operator-precedence slip. -/
theorem high_score_check_skips_short_ledger :
    shortLedger.length < 10 ∧
    high_score_check shortLedger 50 = false ∧
    qualifies_spec shortLedger 50 = true := by
  decide

/-- C2: for every word of the word bank and every input script, if the
guesses the round accepted cover every letter of the word, the round is
reported as won.  (Letters of the word that get accepted always land in
`correct_letters`, and the completion test fires on the guess that
completes the cover.) -/
theorem play_round_covered_guesses_win (difficulty : String) (g : GameState)
    (wr : WordRecord) (script : List (List Char)) (hwr : wr ∈ wordBank)
    (hcov : ∀ c ∈ wr.word.data.map Char.toUpper,
      c ∈ (play_round difficulty g wr script).accepted) :
    (play_round difficulty g wr script).outcome = RoundEnd.won := by
  have hne : wr.word.data ≠ [] :=
    (by decide : ∀ w ∈ wordBank, w.word.data ≠ []) wr hwr
  have hne2 : wr.word.data.map Char.toUpper ≠ [] := by simpa using hne
  unfold play_round at hcov ⊢
  refine roundLoop_covered_won _ _ _ _ _ _ _ _ _ ?_ ?_ hcov
  · intro c hc hmem
    cases hmem
  · cases hw : wr.word.data.map Char.toUpper with
    | nil => exact absurd hw hne2
    | cons c cs => simp [is_word_complete]

theorem play_round_covered_guesses_win_witness :
    (play_round "easy" ⟨0, [], 0, 0⟩ catRecord [['C'], ['A'], ['T']]).outcome =
      RoundEnd.won :=
  play_round_covered_guesses_win "easy" ⟨0, [], 0, 0⟩ catRecord [['C'], ['A'], ['T']]
    (by decide) (by decide)

/-- C3: for every starting ledger (however it was loaded) and every
inserted entry, `add_high_score` produces the ledger obtained by stable
descending sort of the appended list truncated to 10 entries: it has at
most 10 entries, is sorted descending by score, keeps equal-score entries
in their pre-sort (insertion) order — filtering any score value commutes
with the sort — and hands exactly the new ledger to the synchronous save,
so on a successful write the store holds it.  Since the result satisfies
the invariant for an arbitrary starting ledger, it holds after each
insert of any insertion sequence. -/
theorem add_high_score_ledger_invariants (ledger : List ScoreEntry) (e : ScoreEntry)
    (store : Option (List ScoreEntry)) :
    add_high_score ledger e = (sortScoresDesc (ledger ++ [e])).take 10 ∧
    (add_high_score ledger e).length ≤ 10 ∧
    sortedDesc (add_high_score ledger e) ∧
    (∀ s : Int,
      (sortScoresDesc (ledger ++ [e])).filter (fun x => decide (x.score = s)) =
        (ledger ++ [e]).filter (fun x => decide (x.score = s))) ∧
    (add_high_score_run true store ledger e).2 = some (add_high_score ledger e) := by
  refine ⟨rfl, ?_, ?_, ?_, rfl⟩
  · rw [add_high_score, List.length_take]
    exact min_le_left _ _
  · exact List.Pairwise.sublist (List.take_sublist _ _) (sortScoresDesc_sorted _)
  · intro s
    exact sortScoresDesc_filter _ s

/-- C4: every winning round earns exactly
`basePoints(difficulty) + attempts_left * 5` points with `attempts_left`
read at the moment of completion (correct guesses, the winning one
included, never decrement it), and adds exactly those points to the
session score; in particular the word "CAT" on easy with guesses C, A, T
wins with `attempts_left = 6` and earns `10 + 30 = 40` points. -/
theorem play_round_success_scoring :
    (∀ (difficulty : String) (g : GameState) (wr : WordRecord)
       (script : List (List Char)),
      (play_round difficulty g wr script).outcome = RoundEnd.won →
        (play_round difficulty g wr script).pointsEarned =
          basePoints difficulty + (play_round difficulty g wr script).attemptsLeft * 5 ∧
        (play_round difficulty g wr script).game.score =
          g.score + (play_round difficulty g wr script).pointsEarned) ∧
    ((play_round "easy" ⟨0, [], 0, 0⟩ catRecord [['C'], ['A'], ['T']]).outcome =
        RoundEnd.won ∧
      (play_round "easy" ⟨0, [], 0, 0⟩ catRecord [['C'], ['A'], ['T']]).attemptsLeft = 6 ∧
      (play_round "easy" ⟨0, [], 0, 0⟩ catRecord [['C'], ['A'], ['T']]).pointsEarned = 40 ∧
      (play_round "easy" ⟨0, [], 0, 0⟩ catRecord [['C'], ['A'], ['T']]).game.score = 40) := by
  constructor
  · intro difficulty g wr script h
    unfold play_round at h ⊢
    have := roundLoop_won_points (wr.word.data.map Char.toUpper) (basePoints difficulty)
      wr.word script g [] [] [] MAX_ATTEMPTS h
    exact ⟨this.1, this.2.1⟩
  · decide

theorem play_round_success_scoring_witness :
    (play_round "easy" ⟨0, [], 0, 0⟩ catRecord [['C'], ['A'], ['T']]).pointsEarned =
      basePoints "easy" +
        (play_round "easy" ⟨0, [], 0, 0⟩ catRecord [['C'], ['A'], ['T']]).attemptsLeft * 5 ∧
    (play_round "easy" ⟨0, [], 0, 0⟩ catRecord [['C'], ['A'], ['T']]).game.score =
      (⟨0, [], 0, 0⟩ : GameState).score +
        (play_round "easy" ⟨0, [], 0, 0⟩ catRecord [['C'], ['A'], ['T']]).pointsEarned :=
  play_round_success_scoring.1 "easy" ⟨0, [], 0, 0⟩ catRecord [['C'], ['A'], ['T']]
    (by decide)

/-- C5: for every round and every input script, `attempts_left` ends in
`[0, MAX_ATTEMPTS]` (it is a natural number, hence never negative), and
it decreases by exactly one per wrong accepted guess and in no other
way: final `attempts_left` plus the number of collected wrong letters is
exactly `MAX_ATTEMPTS`.  The underlying loop invariants hold at every
intermediate state, so the bound holds throughout the round. -/
theorem play_round_attempts_bounds (difficulty : String) (g : GameState)
    (wr : WordRecord) (script : List (List Char)) :
    (play_round difficulty g wr script).attemptsLeft ≤ MAX_ATTEMPTS ∧
    (play_round difficulty g wr script).attemptsLeft +
      (play_round difficulty g wr script).wrongLetters.length = MAX_ATTEMPTS := by
  unfold play_round
  constructor
  · exact roundLoop_attemptsLeft_le _ _ _ _ _ _ _ _ _
  · simpa using roundLoop_attempts_wrong_sum (wr.word.data.map Char.toUpper)
      (basePoints difficulty) wr.word script g [] [] [] MAX_ATTEMPTS

/-- C6: submitting an input the validation loop rejects — already in
`correct_letters` or `wrong_letters`, or not a single alphabetic letter —
changes nothing: the round continues exactly as if that input had never
been typed, so `attempts_left`, `total_attempts`, `correct_guesses`,
`correct_letters`  and `wrong_letters` are all left unchanged; only
accepted new guesses mutate them. -/
theorem play_round_rejected_guess_frame (word : List Char) (base : Nat) (ow : String)
    (g : GameState) (correct wrong acc : List Char) (attempts : Nat)
    (input : List Char) (rest : List (List Char))
    (hrej : acceptedGuess correct wrong input = none) :
    roundLoop word base ow g correct wrong acc attempts (input :: rest) =
      roundLoop word base ow g correct wrong acc attempts rest := by
  by_cases h0 : attempts = 0
  · subst h0
    rw [roundLoop_zero, roundLoop_zero]
  · exact roundLoop_cons_none h0 hrej

theorem play_round_rejected_guess_frame_witness :
    roundLoop ['C', 'A', 'T'] 10 "cat" ⟨0, [], 0, 0⟩ ['A'] [] ['A'] 6 [['A'], ['C']] =
      roundLoop ['C', 'A', 'T'] 10 "cat" ⟨0, [], 0, 0⟩ ['A'] [] ['A'] 6 [['C']] :=
  play_round_rejected_guess_frame _ _ _ _ _ _ _ _ _ _ (by decide)

/-- C7: a round that does not end in a win — in particular one whose
`attempts_left` reaches 0 before the word is complete — earns 0 points
and leaves the session score and words-learned list unchanged; the
spec's scenario (word "DOG", six wrong guesses X, Y, Z, Q, W, V) ends
lost with 0 points, `attempts_left = 0`, and the session state intact. -/
theorem play_round_failed_round_frame :
    (∀ (difficulty : String) (g : GameState) (wr : WordRecord)
       (script : List (List Char)),
      (play_round difficulty g wr script).outcome ≠ RoundEnd.won →
        (play_round difficulty g wr script).pointsEarned = 0 ∧
        (play_round difficulty g wr script).game.score = g.score ∧
        (play_round difficulty g wr script).game.wordsLearned = g.wordsLearned) ∧
    ((play_round "easy" ⟨7, ["seed"], 3, 2⟩ dogRecord
        [['X'], ['Y'], ['Z'], ['Q'], ['W'], ['V']]).outcome = RoundEnd.lost ∧
      (play_round "easy" ⟨7, ["seed"], 3, 2⟩ dogRecord
        [['X'], ['Y'], ['Z'], ['Q'], ['W'], ['V']]).pointsEarned = 0 ∧
      (play_round "easy" ⟨7, ["seed"], 3, 2⟩ dogRecord
        [['X'], ['Y'], ['Z'], ['Q'], ['W'], ['V']]).attemptsLeft = 0 ∧
      (play_round "easy" ⟨7, ["seed"], 3, 2⟩ dogRecord
        [['X'], ['Y'], ['Z'], ['Q'], ['W'], ['V']]).game.score = 7 ∧
      (play_round "easy" ⟨7, ["seed"], 3, 2⟩ dogRecord
        [['X'], ['Y'], ['Z'], ['Q'], ['W'], ['V']]).game.wordsLearned = ["seed"]) := by
  constructor
  · intro difficulty g wr script h
    unfold play_round at h ⊢
    exact roundLoop_not_won_frame _ _ _ _ _ _ _ _ _ h
  · decide

theorem play_round_failed_round_frame_witness :
    (play_round "easy" ⟨7, ["seed"], 3, 2⟩ dogRecord
      [['X'], ['Y'], ['Z'], ['Q'], ['W'], ['V']]).pointsEarned = 0 ∧
    (play_round "easy" ⟨7, ["seed"], 3, 2⟩ dogRecord
      [['X'], ['Y'], ['Z'], ['Q'], ['W'], ['V']]).game.score =
        (⟨7, ["seed"], 3, 2⟩ : GameState).score ∧
    (play_round "easy" ⟨7, ["seed"], 3, 2⟩ dogRecord
      [['X'], ['Y'], ['Z'], ['Q'], ['W'], ['V']]).game.wordsLearned =
        (⟨7, ["seed"], 3, 2⟩ : GameState).wordsLearned :=
  play_round_failed_round_frame.1 "easy" ⟨7, ["seed"], 3, 2⟩ dogRecord
    [['X'], ['Y'], ['Z'], ['Q'], ['W'], ['V']] (by decide)

/-- C8: a session plays exactly `ROUNDS_PER_GAME` (10) rounds whatever
the individual outcomes are — every round, lost ones included, consumes
exactly one slot — with round `i` using the `i`-th injected draw, and
each round's resulting session statistics fed unconditionally into the
next round. -/
theorem play_game_round_count (difficulty : String)
    (draws : Nat → WordRecord × List (List Char)) :
    (play_game difficulty draws).2 = ROUNDS_PER_GAME ∧
    play_game difficulty draws =
      playRounds difficulty ⟨0, [], 0, 0⟩ ((List.range ROUNDS_PER_GAME).map draws) ∧
    (∀ (g : GameState) (wr : WordRecord) (script : List (List Char))
       (rest : List (WordRecord × List (List Char))),
      playRounds difficulty g ((wr, script) :: rest) =
        ((playRounds difficulty (play_round difficulty g wr script).game rest).1,
          (playRounds difficulty (play_round difficulty g wr script).game rest).2 + 1)) := by
  refine ⟨?_, rfl, ?_⟩
  · rw [play_game, playRounds_count]
    simp
  · intro g wr script rest
    rfl

/-- C9: a missing or corrupt score file makes `load_high_scores` return
the empty ledger (the `except` clause swallows the error, so nothing
propagates to the caller), and a failed write leaves the store exactly
as it was (the save is best-effort, total, and never raises). -/
theorem persistence_failure_handling :
    load_high_scores FileState.missing = [] ∧
    load_high_scores FileState.corrupt = [] ∧
    (∀ (store : Option (List ScoreEntry)) (ledger : List ScoreEntry),
      save_high_scores false store ledger = store) := by
  refine ⟨rfl, rfl, ?_⟩
  intro store ledger
  rfl

/-- C10: `load_high_scores` returns a parsed file verbatim, with no
re-sorting, truncation or validation; the end-of-game check reads the
*last* element as the ledger minimum, which is correct exactly for the
sorted-descending ledgers `add_high_score` writes: on a sorted ledger the
last entry's score bounds every entry's score from below, while on the
unsorted `badLedger` (loaded untouched, well under 10 entries) the last
score is 100 although an entry with score 50 is present, so a session
score of 60 is rejected against 100 despite exceeding the true minimum. -/
theorem load_high_scores_no_validation :
    (∀ entries : List ScoreEntry, load_high_scores (FileState.ok entries) = entries) ∧
    (∀ l : List ScoreEntry, sortedDesc l → ∀ e ∈ l, lastScore l ≤ e.score) ∧
    (load_high_scores (FileState.ok badLedger) = badLedger ∧
      badLedger.length < 10 ∧
      lastScore badLedger = 100 ∧
      high_score_check badLedger 60 = false ∧
      (∃ e ∈ badLedger, e.score < 60)) := by
  refine ⟨fun entries => rfl, fun l hl => lastScore_min hl, rfl, ?_, ?_, ?_, ?_⟩
  · decide
  · decide
  · decide
  · decide

theorem load_high_scores_no_validation_witness :
    lastScore goodLedger ≤ (⟨"alice", 50, "easy", "2026-01-01 00:00"⟩ : ScoreEntry).score :=
  load_high_scores_no_validation.2.1 goodLedger
    (by unfold sortedDesc; decide)
    ⟨"alice", 50, "easy", "2026-01-01 00:00"⟩ (by decide)

end LetterGame
